import Mathlib

/-
Shallow embedding of the passcards secure-storage core.

Source files embedded here:
  src/unnamed/part_000      (onepass module: Vault, SimpleKeyAgent, decryptKey,
                             Item.isTombstone, Vault.listItems, Vault.unlock,
                             Vault.decryptItemData, Vault.encryptItemData)
  src/lib/local_store.ts    (Store: saveItem, listItems, saveKeys, listKeys,
                             passwordHint, readItemIndex, the onLock listener)

Collaborator modules of this repository that are not present under src
(onepass_crypto, item_store, key_agent, base/cached, base/collectionutil,
base/key_value_store) are modelled from the spec; each such definition carries
a doc comment starting with: Modelled from the spec.
-/

-- ===================================================================
-- Crypto collaborator model
-- ===================================================================

/-- Result of splitting a salted ciphertext envelope into its embedded salt
and the remaining ciphertext. -/
structure SaltCipher where
  salt : String
  cipherText : String
deriving DecidableEq

/-- A derived AES key together with its initialisation vector, as produced by
the legacy salted key derivation. -/
structure KeyParams where
  key : String
  iv : String
deriving DecidableEq

/-- Modelled from the spec: the crypto-primitives collaborator (module
onepass_crypto, not under src). Section 6 of the spec lists pbkdf2,
aesCbcDecrypt, the legacy salted key/IV derivation (openSSLKey) and the
salt-plus-ciphertext envelope read by extractSaltAndCipherText. Byte strings
are modelled as Lean strings; every primitive is an opaque-to-us function
packed in this structure and instantiated per theorem or witness. -/
structure CryptoImpl where
  pbkdf2 : String → String → Nat → Nat → String
  aesCbcDecrypt : String → String → String → String
  openSSLKey : String → String → KeyParams
  extractSaltAndCipherText : String → SaltCipher

/-- JavaScript String.substring(a, b) for a less-or-equal b: the slice of the
string from index a (inclusive) to b (exclusive), clamped to the string. -/
def jsSubstring (s : String) (a b : Nat) : String :=
  (s.drop a).take (b - a)

-- ===================================================================
-- part_000: decryptKey (lines 797-813)
-- ===================================================================

/-- The candidate raw key computed by decryptKey before validation: derive 32
bytes with PBKDF2, split into a 16-byte AES key and a 16-byte IV, then
AES-CBC-decrypt the wrapped key. Mirrors part_000 lines 798-802. -/
def deriveCandidate (c : CryptoImpl) (masterPwd encryptedKey salt : String)
    (iterCount : Nat) : String :=
  let derivedKey := c.pbkdf2 masterPwd salt iterCount 32
  let aesKey := jsSubstring derivedKey 0 16
  let iv := jsSubstring derivedKey 16 32
  c.aesCbcDecrypt aesKey encryptedKey iv

/-- The decryption of the validation blob against a candidate raw key: derive
a key/IV pair from the candidate and the salt embedded in the validation blob
via the legacy salted derivation, then AES-CBC-decrypt the validation
ciphertext. Mirrors part_000 lines 803-806. -/
def decryptValidation (c : CryptoImpl) (candidate validation : String) : String :=
  let validationSaltCipher := c.extractSaltAndCipherText validation
  let keyParams := c.openSSLKey candidate validationSaltCipher.salt
  c.aesCbcDecrypt keyParams.key validationSaltCipher.cipherText keyParams.iv

/-- decryptKey from part_000 lines 797-813. The thrown string
"Failed to decrypt key" (the KeyValidationError of the spec) is modelled as
the error branch of Except. -/
def decryptKey (c : CryptoImpl) (masterPwd encryptedKey salt : String)
    (iterCount : Nat) (validation : String) : Except String String :=
  let decryptedKey := deriveCandidate c masterPwd encryptedKey salt iterCount
  let decryptedValidation := decryptValidation c decryptedKey validation
  if decryptedValidation ≠ decryptedKey then Except.error "Failed to decrypt key"
  else Except.ok decryptedKey

-- ===================================================================
-- part_000: EncryptionKeyEntry, SimpleKeyAgent, Vault.unlock
-- ===================================================================

/-- EncryptionKeyEntry from part_000 lines 31-37 (data and validation hold the
already base64-decoded blobs, as produced by readKeyData). -/
structure EncryptionKeyEntry where
  data : String
  identifier : String
  iterations : Nat
  level : String
  validation : String
deriving DecidableEq

/-- The in-memory key table of SimpleKeyAgent (part_000 lines 86-134): a
JavaScript object mapping key ids to raw keys, modelled as an association
list with at most one binding per id. -/
structure KeyAgentState where
  keys : List (String × String)
deriving DecidableEq

/-- SimpleKeyAgent.addKey (part_000 lines 95-98): property assignment on the
key table, replacing any previous binding for the same id. -/
def KeyAgentState.addKey (a : KeyAgentState) (id key : String) : KeyAgentState :=
  ⟨(id, key) :: a.keys.filter (fun p => p.1 ≠ id)⟩

/-- One entry of the unlock loop body of Vault.unlock (part_000 lines 433-436):
split the entry data into salt and ciphertext and run decryptKey with the
entry parameters. -/
def deriveEntry (c : CryptoImpl) (pwd : String) (e : EncryptionKeyEntry) :
    Except String String :=
  let saltCipher := c.extractSaltAndCipherText e.data
  decryptKey c pwd saltCipher.cipherText saltCipher.salt e.iterations e.validation

/-- Vault.unlock (part_000 lines 431-440): iterate over the persisted key
entries in order; for each entry derive and validate the key and register it
with the key agent immediately. A validation failure aborts the loop (the
thrown error rejects the promise) but keys registered by earlier iterations
stay registered. Returns the final agent state and the overall outcome. -/
def Vault.unlock (c : CryptoImpl) (pwd : String) (agent : KeyAgentState) :
    List EncryptionKeyEntry → KeyAgentState × Except String Unit
  | [] => (agent, Except.ok ())
  | e :: rest =>
    match deriveEntry c pwd e with
    | Except.error msg => (agent, Except.error msg)
    | Except.ok key => Vault.unlock c pwd (agent.addKey e.identifier key) rest

/-- The id/key pairs that a call of Vault.unlock actually registers: the
derived keys of the longest prefix of entries that all validate. -/
def unlockAddedKeys (c : CryptoImpl) (pwd : String)
    (entries : List EncryptionKeyEntry) : List (String × String) :=
  (entries.takeWhile (fun e => (deriveEntry c pwd e).toBool)).filterMap
    (fun e =>
      match deriveEntry c pwd e with
      | Except.ok key => some (e.identifier, key)
      | Except.error _ => none)

-- ===================================================================
-- part_000: Vault.decryptItemData / Vault.encryptItemData (lines 566-600)
-- ===================================================================

/-- The key-entry selection loop shared by Vault.decryptItemData and
Vault.encryptItemData (part_000 lines 569-575 and 587-593): a forEach over
the persisted entries that overwrites the result on every entry whose level
matches, so the last matching entry wins. Written as recursion that prefers
a match found in the tail. -/
def findLevelKey : List EncryptionKeyEntry → String → Option EncryptionKeyEntry
  | [], _ => none
  | e :: rest, level =>
    match findLevelKey rest level with
    | some k => some k
    | none => if e.level = level then some e else none

/-- Vault.decryptItemData (part_000 lines 566-582). The key agent decrypt
call (with the fixed AES128_OpenSSLKey parameters) is abstracted as the
function argument agentDecrypt from key id and ciphertext to the outcome. -/
def Vault.decryptItemData (agentDecrypt : String → String → Except String String)
    (keys : List EncryptionKeyEntry) (level data : String) : Except String String :=
  match findLevelKey keys level with
  | some k => agentDecrypt k.identifier data
  | none => Except.error ("No key " ++ level ++ " found")

/-- Vault.encryptItemData (part_000 lines 584-600), same shape as
Vault.decryptItemData with the key agent encrypt call abstracted. -/
def Vault.encryptItemData (agentEncrypt : String → String → Except String String)
    (keys : List EncryptionKeyEntry) (level data : String) : Except String String :=
  match findLevelKey keys level with
  | some k => agentEncrypt k.identifier data
  | none => Except.error ("No key " ++ level ++ " found")

-- ===================================================================
-- part_000: Vault.listItems (lines 536-564) and Item.isTombstone (305-307)
-- ===================================================================

/-- One row of the contents.js overview array (part_000 lines 542-550): the
positional 8-tuple with the unused index 6 omitted and index 7 kept as its
"Y"/"N" string flag. -/
structure ContentsEntry where
  uuid : String
  typeName : String
  title : String
  location : String
  updatedAt : Nat
  folderUuid : String
  trashed : String
deriving DecidableEq

/-- The overview fields of a vault item as built by Vault.listItems
(part_000 lines 543-550). -/
structure VaultItem where
  uuid : String
  typeName : String
  title : String
  location : String
  updatedAt : Nat
  folderUuid : String
  trashed : Bool
deriving DecidableEq

/-- Item.isTombstone (part_000 lines 305-307). -/
def VaultItem.isTombstone (it : VaultItem) : Bool :=
  it.typeName == "system.Tombstone"

/-- The per-entry item construction of Vault.listItems (part_000 lines
543-550). -/
def vaultItemFromEntry (e : ContentsEntry) : VaultItem :=
  { uuid := e.uuid
  , typeName := e.typeName
  , title := e.title
  , location := e.location
  , updatedAt := e.updatedAt
  , folderUuid := e.folderUuid
  , trashed := e.trashed == "Y" }

/-- Vault.listItems (part_000 lines 536-564): build an item from every
contents.js entry, skipping tombstone markers for deleted items. -/
def Vault.listItems (entries : List ContentsEntry) : List VaultItem :=
  entries.filterMap (fun e =>
    let it := vaultItemFromEntry e
    if it.isTombstone then none else some it)

-- ===================================================================
-- local_store.ts: data model
-- ===================================================================

/-- The ItemOverview record of local_store.ts lines 50-63, parameterised by
the type of revision ids so that the content-addressed revision id type can
recursively contain the overview it identifies. openContents is kept opaque
as a string. -/
structure ItemOverviewP (ρ : Type) where
  title : String
  updatedAt : Nat
  createdAt : Nat
  trashed : Bool
  typeName : String
  openContents : String
  locations : List String
  account : String
  revision : Option ρ
  parentRevision : Option ρ
deriving DecidableEq

/-- Modelled from the spec: item content (item_store.ItemContent is not under
src). The claims treat content as an opaque payload, so it is modelled as its
serialised JSON string. -/
abbrev ItemContent : Type := String

/-- Modelled from the spec: the revision-id space of
item_store.generateRevisionId (not under src). The spec states that a
revision id is a content-addressed, deterministic function of the pair
(overview, content), with identical inputs giving identical ids and any
change to either giving a different id; the universal such function is the
pair itself, so an id is modelled as the pair it addresses. -/
inductive RevisionId where
  | mk (overview : ItemOverviewP RevisionId) (content : String) : RevisionId

/-- The overview record with string-typed ids instantiated to RevisionId. -/
abbrev ItemOverview : Type := ItemOverviewP RevisionId

/-- Modelled from the spec: item_store.generateRevisionId (not under src),
the deterministic content-addressed revision id of an (overview, content)
pair. -/
def generateRevisionId (overview : ItemOverview) (content : ItemContent) :
    RevisionId :=
  RevisionId.mk overview content

/-- The item record of item_store as used by local_store.ts (the fields read
and written by Store.itemFromOverview and Store.overviewFromItem, lines
204-237, plus uuid). createdAt and updatedAt are optional because a freshly
constructed item has neither until saveItem stamps them. -/
structure Item where
  uuid : String
  title : String
  updatedAt : Option Nat
  createdAt : Option Nat
  trashed : Bool
  typeName : String
  openContents : String
  locations : List String
  account : String
  revision : Option RevisionId
  parentRevision : Option RevisionId

/-- Item.isTombstone, as defined for vault items in part_000 lines 305-307
and used by Store.listItems. -/
def Item.isTombstone (item : Item) : Bool :=
  item.typeName == "system.Tombstone"

/-- Store.overviewFromItem (local_store.ts lines 222-237). The source calls
getTime() on the stamped dates; an unstamped date is read as 0. -/
def Store.overviewFromItem (item : Item) : ItemOverview :=
  { title := item.title
  , updatedAt := item.updatedAt.getD 0
  , createdAt := item.createdAt.getD 0
  , trashed := item.trashed
  , typeName := item.typeName
  , openContents := item.openContents
  , locations := item.locations
  , account := item.account
  , revision := item.revision
  , parentRevision := item.parentRevision }

/-- Store.itemFromOverview (local_store.ts lines 204-220). -/
def Store.itemFromOverview (uuid : String) (overview : ItemOverview) : Item :=
  { uuid := uuid
  , title := overview.title
  , updatedAt := some overview.updatedAt
  , createdAt := some overview.createdAt
  , trashed := overview.trashed
  , typeName := overview.typeName
  , openContents := overview.openContents
  , locations := overview.locations
  , account := overview.account
  , revision := overview.revision
  , parentRevision := overview.parentRevision }

/-- An entry of the item index (local_store.ts lines 68-70): overview data
plus the last-synced timestamp. -/
structure ItemIndexEntry where
  overview : ItemOverview
  lastSyncedAt : Option Nat

/-- The decrypted overview index (OverviewMap, local_store.ts lines 36-38):
a map from item uuid to its index entry, modelled as an association list. -/
abbrev OverviewMap : Type := List (String × ItemIndexEntry)

-- ===================================================================
-- local_store.ts: saveItem revision computation (lines 280-291)
-- ===================================================================

/-- The new revision id computed inside Store.saveItem (local_store.ts line
283): generateRevisionId is applied after parentRevision has been set to the
previous revision (line 282), so the overview snapshot feeding the id carries
the previous revision as parent. -/
def newRevisionId (item : Item) (content : ItemContent) : RevisionId :=
  generateRevisionId (Store.overviewFromItem { item with parentRevision := item.revision }) content

/-- The item mutation performed by Store.saveItem lines 282-283: first set
parentRevision to the revision the item had immediately before the save, then
set revision to the freshly computed id. -/
def saveItemRevisionUpdate (item : Item) (content : ItemContent) : Item :=
  let item1 := { item with parentRevision := item.revision }
  { item1 with revision := some (generateRevisionId (Store.overviewFromItem item1) content) }

/-- The sequence of item states after each save of a run of sequential
saveItem calls on one item with the given list of contents. -/
def saveStates (item : Item) : List ItemContent → List Item
  | [] => []
  | c :: cs =>
    saveItemRevisionUpdate item c :: saveStates (saveItemRevisionUpdate item c) cs

-- ===================================================================
-- local_store.ts: saveItem timestamp stamping (lines 265-274)
-- ===================================================================

/-- The change source of a save (item_store.ChangeSource; only the
distinction between Sync and a local edit matters to local_store). -/
inductive ChangeSource where
  | Local
  | Sync
deriving DecidableEq

/-- Modelled from the spec: item_store.Item.updateTimestamps (not under src).
Section 4.6 step 1: stamp updatedAt to now and createdAt to now when absent,
leaving a present createdAt unchanged. -/
def Item.updateTimestamps (item : Item) (now : Nat) : Item :=
  { item with updatedAt := some now, createdAt := some (item.createdAt.getD now) }

/-- The head of Store.saveItem (local_store.ts lines 265-274): a non-Sync
source stamps the timestamps to the current time; a Sync source asserts both
timestamps are already set (a failed assertion is the AssertionViolation of
the spec, modelled as the error branch) and leaves them unchanged. -/
def Store.saveItemStamp (item : Item) (source : ChangeSource) (now : Nat) :
    Except String Item :=
  if source ≠ ChangeSource.Sync then Except.ok (item.updateTimestamps now)
  else if item.createdAt = none then Except.error "AssertionViolation: item.createdAt"
  else if item.updatedAt = none then Except.error "AssertionViolation: item.updatedAt"
  else Except.ok item

-- ===================================================================
-- local_store.ts: saveItem commit stage (lines 292-298)
-- ===================================================================

/-- The key space of the items object store (local_store.ts schema comment
and call sites): the index blob, lastSynced/ entries and revisions/ entries.
The constructor argument models the suffix after the fixed prefix of the
string key, so revisions rev stands for the key revisions/ followed by the
revision id. -/
inductive ItemStoreKey where
  | index
  | lastSynced (uuid : String)
  | revisions (rev : RevisionId)

/-- The persisted contents of the items object store: association list from
key to the stored (encrypted) blob. -/
abbrev ItemStore : Type := List (ItemStoreKey × String)

/-- Q.all over the pair of futures joined at local_store.ts line 295: the
combined future resolves only when both resolve and fails when either
fails. -/
def qAllPair : Except String Unit → Except String Unit → Except String Unit
  | Except.ok _, Except.ok _ => Except.ok ()
  | Except.error e, _ => Except.error e
  | _, Except.error e => Except.error e

/-- Outcome of the commit stage of Store.saveItem: the result of the returned
future, whether onItemUpdated was published, and the items store contents
after the stage. -/
structure SaveOutcome where
  result : Except String Unit
  published : Bool
  itemStore : ItemStore

/-- The commit stage of Store.saveItem (local_store.ts lines 292-298): the
index update is enqueued (its flush outcome is the argument indexUpdated,
the write being performed by the collaborator BatchedUpdateQueue, modelled
from the spec) and the encrypted revision blob is written under
revisions/ plus the new revision id (its outcome is revisionSaved); the
returned future is Q.all of the two, and onItemUpdated is published exactly
when that combined future resolves. -/
def Store.saveItemCommit (st : ItemStore) (rev : RevisionId)
    (revisionData : String) (indexUpdated revisionSaved : Except String Unit) :
    SaveOutcome :=
  let st2 : ItemStore :=
    match revisionSaved with
    | Except.ok _ => (ItemStoreKey.revisions rev, revisionData) :: st
    | Except.error _ => st
  let r := qAllPair indexUpdated revisionSaved
  { result := r, published := r.toBool, itemStore := st2 }

-- ===================================================================
-- local_store.ts: key object store and Store.saveKeys (lines 321-351)
-- ===================================================================

/-- Modelled from the spec: key_agent.Key (not under src), the persisted
encrypted encryption key. Only the identifier is inspected by local_store;
the remaining payload (encrypted key material plus PBKDF2 metadata) is
collapsed into one opaque field. -/
structure Key where
  identifier : String
  payload : String
deriving DecidableEq

/-- The key space of the keys object store (local_store.ts schema comment
lines 9-12 and call sites): the plain-text password hint under the string
key hint, and one entry per encryption key under the prefix key/ followed by
the key identifier (KEY_ID_PREFIX, line 81). The constructor keyEntry id
stands for the string key key/ followed by id. -/
inductive KeyStoreKey where
  | hint
  | keyEntry (id : String)
deriving DecidableEq

/-- A value stored in the keys object store: an encryption key record or the
password hint string. -/
inductive KeyStoreValue where
  | keyVal (k : Key)
  | hintVal (h : String)
deriving DecidableEq

/-- The persisted contents of the keys object store, an association list with
at most one binding per key (the map invariant of the underlying object
store, maintained by kvSet and kvRemove). -/
abbrev KeyStore : Type := List (KeyStoreKey × KeyStoreValue)

/-- Modelled from the spec: the get operation of the persisted key-value
collaborator (base/key_value_store, not under src; spec section 6). -/
def kvGet (st : KeyStore) (k : KeyStoreKey) : Option KeyStoreValue :=
  (st.find? (fun p => p.1 == k)).map (fun p => p.2)

/-- Modelled from the spec: the set operation of the persisted key-value
collaborator; overwrites any previous binding of the same key. -/
def kvSet (st : KeyStore) (k : KeyStoreKey) (v : KeyStoreValue) : KeyStore :=
  (k, v) :: st.filter (fun p => !(p.1 == k))

/-- Modelled from the spec: the remove operation of the persisted key-value
collaborator. -/
def kvRemove (st : KeyStore) (k : KeyStoreKey) : KeyStore :=
  st.filter (fun p => !(p.1 == k))

/-- Whether a keys-store key lies under the key/ prefix. -/
def isKeyEntry : KeyStoreKey → Bool
  | KeyStoreKey.keyEntry _ => true
  | KeyStoreKey.hint => false

/-- Modelled from the spec: the list operation of the persisted key-value
collaborator restricted to the key/ prefix, as invoked by
keyStore.list(KEY_ID_PREFIX) in Store.listKeys and Store.saveKeys. -/
def kvListKeyEntries (st : KeyStore) : List KeyStoreKey :=
  (st.map Prod.fst).filter isKeyEntry

/-- Store.listKeys (local_store.ts lines 321-329): list the ids under the
key/ prefix and fetch the key record stored under each. -/
def Store.listKeys (st : KeyStore) : List Key :=
  (kvListKeyEntries st).filterMap (fun id =>
    match kvGet st id with
    | some (KeyStoreValue.keyVal k) => some k
    | _ => none)

/-- Store.saveKeys (local_store.ts lines 331-347): remove every existing
entry under the key/ prefix, then store each given key under key/ plus its
identifier and the hint under hint. -/
def Store.saveKeys (st : KeyStore) (keys : List Key) (hintText : String) :
    KeyStore :=
  let removed := (kvListKeyEntries st).foldl (fun s id => kvRemove s id) st
  let withKeys := keys.foldl
    (fun s k => kvSet s (KeyStoreKey.keyEntry k.identifier) (KeyStoreValue.keyVal k))
    removed
  kvSet withKeys KeyStoreKey.hint (KeyStoreValue.hintVal hintText)

/-- The keys-store pair under which Store.saveKeys persists one key. -/
def keyPairOf (k : Key) : KeyStoreKey × KeyStoreValue :=
  (KeyStoreKey.keyEntry k.identifier, KeyStoreValue.keyVal k)

/-- Store.passwordHint (local_store.ts lines 349-351). -/
def Store.passwordHint (st : KeyStore) : Option KeyStoreValue :=
  kvGet st KeyStoreKey.hint

-- ===================================================================
-- local_store.ts: store state, index cache and listItems
-- ===================================================================

/-- The mutable state of a Store relevant to the claims: the two persisted
object stores and the in-memory cache of the decrypted overview index (the
Cached wrapper created in the constructor, lines 109-112). -/
structure StoreState where
  keyStore : KeyStore
  itemStore : ItemStore
  cachedIndex : Option OverviewMap

/-- The encrypted index blob persisted under the items-store key index, as
fetched by Store.readItemIndex (local_store.ts line 403). -/
def getIndexBlob (st : ItemStore) : Option String :=
  (st.find? (fun p =>
    match p.1 with
    | ItemStoreKey.index => true
    | _ => false)).map (fun p => p.2)

/-- Store.readItemIndex (local_store.ts lines 399-411): fetch the encrypted
index blob and decrypt it, or produce the empty map when no blob is
persisted. The overview-key lookup plus key agent decryption pipeline is
abstracted as the function argument decryptIndex. -/
def Store.readItemIndex (decryptIndex : String → OverviewMap) (s : StoreState) :
    OverviewMap :=
  match getIndexBlob s.itemStore with
  | some blob => decryptIndex blob
  | none => []

/-- Modelled from the spec: cached.Cached.get (base/cached, not under src;
spec section 4.4) applied to the item index as wired up in the Store
constructor lines 109-112: produce the cached map when present, otherwise
invoke the loader Store.readItemIndex once and retain its result. -/
def Store.itemIndexGet (decryptIndex : String → OverviewMap) (s : StoreState) :
    OverviewMap × StoreState :=
  match s.cachedIndex with
  | some m => (m, s)
  | none =>
    let m := Store.readItemIndex decryptIndex s
    (m, { s with cachedIndex := some m })

/-- The lock listener registered in the Store constructor (local_store.ts
lines 113-115): when the key agent fires its lock event, clear the cached
item index (cached.Cached.clear, modelled from the spec: it drops the
in-memory value and touches no persisted state). -/
def Store.onLockClearIndex (s : StoreState) : StoreState :=
  { s with cachedIndex := none }

/-- The pure part of Store.listItems (local_store.ts lines 158-171): build an
item from every entry of the overview map and keep it when it is not a
tombstone or tombstones were requested. The includeTombstones flag of
ListItemsOptions defaults to false at the call sites modelled here. -/
def itemsFromIndex (m : OverviewMap) (includeTombstones : Bool) : List Item :=
  (m.map (fun p => Store.itemFromOverview p.1 p.2.overview)).filter
    (fun it => !it.isTombstone || includeTombstones)

/-- Store.listItems (local_store.ts lines 158-171): read the overview map
through the cache, then filter tombstones as requested. -/
def Store.listItems (decryptIndex : String → OverviewMap) (s : StoreState)
    (includeTombstones : Bool) : List Item × StoreState :=
  let ms := Store.itemIndexGet decryptIndex s
  (itemsFromIndex ms.1 includeTombstones, ms.2)

/-- Store.saveKeys acting on the whole store state: the method only touches
this.keyStore (local_store.ts lines 331-347), so the items store and the
index cache are carried through unchanged. -/
def StoreState.saveKeysFull (s : StoreState) (keys : List Key)
    (hintText : String) : StoreState :=
  { s with keyStore := Store.saveKeys s.keyStore keys hintText }

-- ===================================================================
-- Concrete instances used by witnesses and counterexamples
-- ===================================================================

/-- A small concrete crypto instance for witnesses: the password correct
derives the PBKDF2 block K, the wrapped-key blob D1 decrypts to the master
key MK under it, and the validation blob V1 round-trips MK while V2 does
not. Every unlisted combination falls through to a default that never
validates. -/
def toyCrypto : CryptoImpl :=
  { pbkdf2 := fun pwd _ _ _ => if pwd = "correct" then "K" else "X"
  , aesCbcDecrypt := fun key cipherText _ =>
      if key = "K" ∧ cipherText = "EK" then "MK"
      else if key = "VK" ∧ cipherText = "VAL" then "MK"
      else key
  , openSSLKey := fun password salt =>
      if password = "MK" ∧ salt = "VS" then ⟨"VK", ""⟩
      else if password = "MK" ∧ salt = "VS2" then ⟨"VK2", ""⟩
      else ⟨"G" ++ password, ""⟩
  , extractSaltAndCipherText := fun s =>
      if s = "D1" then ⟨"S1", "EK"⟩
      else if s = "V1" then ⟨"VS", "VAL"⟩
      else if s = "V2" then ⟨"VS2", "VAL2"⟩
      else ⟨"", s⟩ }

/-- A key entry that validates under the password correct with toyCrypto. -/
def entry1 : EncryptionKeyEntry :=
  { data := "D1", identifier := "id1", iterations := 1000, level := "SL5", validation := "V1" }

/-- A key entry with the same wrapped key as entry1 but a corrupt validation
blob: derivation fails for every password with toyCrypto. -/
def entry2 : EncryptionKeyEntry :=
  { data := "D1", identifier := "id2", iterations := 1000, level := "SL5", validation := "V2" }

/-- A key entry at the legacy level SL3, used to exercise level selection. -/
def entry3 : EncryptionKeyEntry :=
  { data := "D1", identifier := "id3", iterations := 1000, level := "SL3", validation := "V3" }

/-- A sample item with stamped timestamps. -/
def sampleItemA : Item :=
  { uuid := "A1", title := "Bank", updatedAt := some 5, createdAt := some 3
  , trashed := false, typeName := "webforms.WebForm", openContents := ""
  , locations := ["bank.example"], account := "", revision := none, parentRevision := none }

/-- The same item under a different uuid: uuid is not part of the overview. -/
def sampleItemB : Item :=
  { sampleItemA with uuid := "B2" }

/-- A sample item that has never been saved: no timestamps yet. -/
def sampleItemFresh : Item :=
  { sampleItemA with createdAt := none, updatedAt := none }

/-- The overview snapshot of sampleItemA. -/
def sampleOverview : ItemOverview :=
  Store.overviewFromItem sampleItemA

/-- A tombstone overview: the same snapshot with the tombstone type name. -/
def tombOverview : ItemOverview :=
  { sampleOverview with typeName := "system.Tombstone" }

/-- A decryption pipeline for witnesses that ignores the blob and produces a
fixed one-item fresh index. -/
def sampleDecrypt : String → OverviewMap :=
  fun _ => [("fresh", ⟨sampleOverview, some 1⟩)]

/-- A store state whose cache holds a stale map while the persisted index
blob is BLOB. -/
def staleState : StoreState :=
  { keyStore := []
  , itemStore := [(ItemStoreKey.index, "BLOB")]
  , cachedIndex := some [("stale", ⟨tombOverview, none⟩)] }

/-- A store state whose cached index holds one tombstone and one ordinary
item. -/
def mixedState : StoreState :=
  { keyStore := []
  , itemStore := []
  , cachedIndex := some [("t1", ⟨tombOverview, none⟩), ("a1", ⟨sampleOverview, none⟩)] }

/-- A contents.js row describing an ordinary login item. -/
def contentsRow1 : ContentsEntry :=
  { uuid := "u1", typeName := "webforms.WebForm", title := "Bank"
  , location := "bank.example", updatedAt := 4, folderUuid := "", trashed := "N" }

/-- A contents.js row describing a tombstone marker. -/
def contentsRow2 : ContentsEntry :=
  { uuid := "u2", typeName := "system.Tombstone", title := ""
  , location := "", updatedAt := 4, folderUuid := "", trashed := "N" }

/-- A key agent callback for witnesses: tags the key id and payload. -/
def sampleAgentOp : String → String → Except String String :=
  fun id d => Except.ok (id ++ ":" ++ d)

/-- Two keys with distinct identifiers for the saveKeys witness. -/
def keysAB : List Key :=
  [{ identifier := "a", payload := "v1" }, { identifier := "b", payload := "v2" }]

/-- A pre-existing keys store holding an old key and an old hint. -/
def oldKeyStore : KeyStore :=
  [ (KeyStoreKey.keyEntry "old", KeyStoreValue.keyVal { identifier := "old", payload := "ov" })
  , (KeyStoreKey.hint, KeyStoreValue.hintVal "oldhint") ]

/-- A full store state wrapping oldKeyStore. -/
def oldFullState : StoreState :=
  { keyStore := oldKeyStore
  , itemStore := [(ItemStoreKey.index, "BLOB")]
  , cachedIndex := none }

-- ===================================================================
-- Theorems
-- ===================================================================

/-- C3: in Store.saveItem the new revision id is a deterministic function of
the overview snapshot (taken after parentRevision is set to the previous
revision) and the content: two saves agree on the revision id exactly when
they agree on that overview and on the content, so identical inputs give
identical ids and any change to either gives a different id. -/
theorem saveItem_revision_id_deterministic (i1 i2 : Item) (c1 c2 : ItemContent) :
    newRevisionId i1 c1 = newRevisionId i2 c2 ↔
      Store.overviewFromItem { i1 with parentRevision := i1.revision } =
        Store.overviewFromItem { i2 with parentRevision := i2.revision } ∧ c1 = c2 := by
  simp [newRevisionId, generateRevisionId, RevisionId.mk.injEq]

/-- Witness for C3: two items differing only in uuid produce the same
revision id for the same content, because uuid is not an overview field. -/
theorem saveItem_revision_id_deterministic_witness :
    newRevisionId sampleItemA "content" = newRevisionId sampleItemB "content" :=
  (saveItem_revision_id_deterministic sampleItemA sampleItemB "content" "content").mpr
    ⟨rfl, rfl⟩

/-- C4: every save sets parentRevision to the revision the item had
immediately before the save (none for an item never saved), before the new
revision id is computed, so after a run of sequential saves the parent
pointers link each state to its immediate predecessor. -/
theorem saveItem_parentRevision_chain (item : Item) (content : ItemContent)
    (cs : List ItemContent) :
    (saveItemRevisionUpdate item content).parentRevision = item.revision ∧
    (saveItemRevisionUpdate { item with revision := none } content).parentRevision = none ∧
    List.Chain' (fun a b => b.parentRevision = a.revision) (item :: saveStates item cs) := by
  refine ⟨rfl, rfl, ?_⟩
  induction cs generalizing item with
  | nil => simp [saveStates]
  | cons c cs ih =>
    rw [saveStates]
    exact List.chain'_cons.mpr ⟨rfl, ih _⟩

/-- Witness for C4 at a concrete item and a two-save run. -/
theorem saveItem_parentRevision_chain_witness :
    (saveItemRevisionUpdate sampleItemA "c0").parentRevision = sampleItemA.revision ∧
    List.Chain' (fun a b => b.parentRevision = a.revision)
      (sampleItemA :: saveStates sampleItemA ["c1", "c2"]) :=
  ⟨(saveItem_parentRevision_chain sampleItemA "c0" ["c1", "c2"]).1,
   (saveItem_parentRevision_chain sampleItemA "c0" ["c1", "c2"]).2.2⟩

/-- C5: the commit stage of Store.saveItem resolves exactly when both the
enqueued index update and the revision-blob write complete; a success stores
the encrypted blob under revisions/ plus the new revision id (which is the
revision the updated item carries), and a failure of either write makes the
returned future fail and suppresses the onItemUpdated publication. -/
theorem saveItem_commit_both_writes (st : ItemStore) (item : Item)
    (content : ItemContent) (revisionData : String)
    (indexUpdated revisionSaved : Except String Unit) :
    (saveItemRevisionUpdate item content).revision = some (newRevisionId item content) ∧
    ((Store.saveItemCommit st (newRevisionId item content) revisionData indexUpdated revisionSaved).result = Except.ok () ↔
      indexUpdated = Except.ok () ∧ revisionSaved = Except.ok ()) ∧
    ((Store.saveItemCommit st (newRevisionId item content) revisionData indexUpdated revisionSaved).published = true ↔
      (Store.saveItemCommit st (newRevisionId item content) revisionData indexUpdated revisionSaved).result = Except.ok ()) ∧
    (revisionSaved = Except.ok () →
      (ItemStoreKey.revisions (newRevisionId item content), revisionData) ∈
        (Store.saveItemCommit st (newRevisionId item content) revisionData indexUpdated revisionSaved).itemStore) ∧
    ((indexUpdated ≠ Except.ok () ∨ revisionSaved ≠ Except.ok ()) →
      (Store.saveItemCommit st (newRevisionId item content) revisionData indexUpdated revisionSaved).published = false ∧
      (Store.saveItemCommit st (newRevisionId item content) revisionData indexUpdated revisionSaved).result ≠ Except.ok ()) := by
  refine ⟨rfl, ?_, ?_, ?_, ?_⟩ <;>
    cases indexUpdated <;> cases revisionSaved <;>
      simp [Store.saveItemCommit, qAllPair, Except.toBool, List.mem_cons]

/-- Witness for C5: with both writes succeeding the future resolves, the
publication fires and the blob sits under the new revision key; with a
failing index update the future fails and nothing is published. -/
theorem saveItem_commit_both_writes_witness :
    (Store.saveItemCommit [] (newRevisionId sampleItemA "c") "ENC" (Except.ok ()) (Except.ok ())).result = Except.ok () ∧
    (ItemStoreKey.revisions (newRevisionId sampleItemA "c"), "ENC") ∈
      (Store.saveItemCommit [] (newRevisionId sampleItemA "c") "ENC" (Except.ok ()) (Except.ok ())).itemStore ∧
    (Store.saveItemCommit [] (newRevisionId sampleItemA "c") "ENC" (Except.error "boom") (Except.ok ())).published = false := by
  refine ⟨?_, ?_, ?_⟩
  · exact (saveItem_commit_both_writes [] sampleItemA "c" "ENC" (Except.ok ()) (Except.ok ())).2.1.mpr ⟨rfl, rfl⟩
  · exact (saveItem_commit_both_writes [] sampleItemA "c" "ENC" (Except.ok ()) (Except.ok ())).2.2.2.1 rfl
  · exact ((saveItem_commit_both_writes [] sampleItemA "c" "ENC" (Except.error "boom") (Except.ok ())).2.2.2.2
      (Or.inl (by simp))).1

/-- C6: the lock listener registered in the Store constructor clears the
cached overview index, so the next index access (and hence the next
listItems call) re-reads and re-decrypts the index from the persisted items
store instead of returning the previously cached map. -/
theorem lock_invalidates_index_cache (decryptIndex : String → OverviewMap)
    (s : StoreState) (b : Bool) :
    (Store.onLockClearIndex s).cachedIndex = none ∧
    (Store.itemIndexGet decryptIndex (Store.onLockClearIndex s)).1 =
      Store.readItemIndex decryptIndex s ∧
    (Store.listItems decryptIndex (Store.onLockClearIndex s) b).1 =
      itemsFromIndex (Store.readItemIndex decryptIndex s) b := by
  refine ⟨rfl, rfl, rfl⟩

/-- Witness for C6: a store with a stale cached map and the persisted blob
BLOB re-decrypts BLOB on the first access after a lock. -/
theorem lock_invalidates_index_cache_witness :
    (Store.onLockClearIndex staleState).cachedIndex = none ∧
    (Store.itemIndexGet sampleDecrypt (Store.onLockClearIndex staleState)).1 =
      sampleDecrypt "BLOB" :=
  ⟨(lock_invalidates_index_cache sampleDecrypt staleState false).1,
   (lock_invalidates_index_cache sampleDecrypt staleState false).2.1⟩

/-- C7: a save from a non-Sync source stamps updatedAt (and a missing
createdAt) to the current time; a Sync-sourced save leaves both timestamps
unchanged and fails with an assertion violation when either is missing. -/
theorem saveItem_timestamp_policy (item : Item) (source : ChangeSource) (now : Nat) :
    (source ≠ ChangeSource.Sync →
      Store.saveItemStamp item source now = Except.ok (item.updateTimestamps now)) ∧
    (item.updateTimestamps now).updatedAt = some now ∧
    (item.updateTimestamps now).createdAt = some (item.createdAt.getD now) ∧
    (item.createdAt ≠ none → item.updatedAt ≠ none →
      Store.saveItemStamp item ChangeSource.Sync now = Except.ok item) ∧
    (item.createdAt = none ∨ item.updatedAt = none →
      Store.saveItemStamp item ChangeSource.Sync now =
        Except.error "AssertionViolation: item.createdAt" ∨
      Store.saveItemStamp item ChangeSource.Sync now =
        Except.error "AssertionViolation: item.updatedAt") := by
  refine ⟨?_, rfl, rfl, ?_, ?_⟩
  · intro h
    simp [Store.saveItemStamp, h]
  · intro h1 h2
    simp [Store.saveItemStamp, h1, h2]
  · intro h
    rcases h with h | h
    · exact Or.inl (by simp [Store.saveItemStamp, h])
    · by_cases hc : item.createdAt = none
      · exact Or.inl (by simp [Store.saveItemStamp, hc])
      · exact Or.inr (by simp [Store.saveItemStamp, hc, h])

/-- Witness for C7: a local save stamps the sample item, a Sync save of a
stamped item is accepted unchanged, and a Sync save of an unstamped item
fails with an assertion violation. -/
theorem saveItem_timestamp_policy_witness :
    Store.saveItemStamp sampleItemA ChangeSource.Local 7 =
      Except.ok (sampleItemA.updateTimestamps 7) ∧
    Store.saveItemStamp sampleItemA ChangeSource.Sync 7 = Except.ok sampleItemA ∧
    (Store.saveItemStamp sampleItemFresh ChangeSource.Sync 7 =
      Except.error "AssertionViolation: item.createdAt" ∨
     Store.saveItemStamp sampleItemFresh ChangeSource.Sync 7 =
      Except.error "AssertionViolation: item.updatedAt") :=
  ⟨(saveItem_timestamp_policy sampleItemA ChangeSource.Local 7).1 (by simp),
   (saveItem_timestamp_policy sampleItemA ChangeSource.Sync 7).2.2.2.1
     (by simp [sampleItemA]) (by simp [sampleItemA]),
   (saveItem_timestamp_policy sampleItemFresh ChangeSource.Sync 7).2.2.2.2
     (Or.inl (by simp [sampleItemFresh, sampleItemA]))⟩

/-- C2: decryptKey derives the candidate key from the password via PBKDF2
split into AES key and IV, and returns it exactly when the validation blob,
decrypted with the legacy salted key/IV derived from the candidate and the
embedded salt, equals the candidate; otherwise it fails with the key
validation error. Under the assumptions that the validation blob round-trips
the true key and validates no other candidate, the correct password succeeds
and any password deriving a different candidate fails. -/
theorem decryptKey_validation_spec (c : CryptoImpl)
    (encryptedKey salt validation trueKey pwd0 pwd k : String) (iterCount : Nat)
    (hval : decryptValidation c trueKey validation = trueKey)
    (huniq : decryptValidation c (deriveCandidate c pwd encryptedKey salt iterCount) validation =
        deriveCandidate c pwd encryptedKey salt iterCount →
      deriveCandidate c pwd encryptedKey salt iterCount = trueKey) :
    (decryptKey c pwd encryptedKey salt iterCount validation =
        Except.ok (deriveCandidate c pwd encryptedKey salt iterCount) ↔
      decryptValidation c (deriveCandidate c pwd encryptedKey salt iterCount) validation =
        deriveCandidate c pwd encryptedKey salt iterCount) ∧
    (decryptKey c pwd encryptedKey salt iterCount validation = Except.ok k →
      k = deriveCandidate c pwd encryptedKey salt iterCount) ∧
    ((decryptKey c pwd encryptedKey salt iterCount validation).toBool = false ↔
      decryptValidation c (deriveCandidate c pwd encryptedKey salt iterCount) validation ≠
        deriveCandidate c pwd encryptedKey salt iterCount) ∧
    (deriveCandidate c pwd0 encryptedKey salt iterCount = trueKey →
      decryptKey c pwd0 encryptedKey salt iterCount validation = Except.ok trueKey) ∧
    (deriveCandidate c pwd encryptedKey salt iterCount ≠ trueKey →
      (decryptKey c pwd encryptedKey salt iterCount validation).toBool = false) := by
  refine ⟨?_, ?_, ?_, ?_, ?_⟩
  · by_cases h : decryptValidation c (deriveCandidate c pwd encryptedKey salt iterCount) validation =
        deriveCandidate c pwd encryptedKey salt iterCount <;>
      simp [decryptKey, h]
  · intro hok
    by_cases h : decryptValidation c (deriveCandidate c pwd encryptedKey salt iterCount) validation =
        deriveCandidate c pwd encryptedKey salt iterCount <;>
      simp [decryptKey, h] at hok
    exact hok.symm
  · by_cases h : decryptValidation c (deriveCandidate c pwd encryptedKey salt iterCount) validation =
        deriveCandidate c pwd encryptedKey salt iterCount <;>
      simp [decryptKey, h, Except.toBool]
  · intro h0
    have hv : decryptValidation c (deriveCandidate c pwd0 encryptedKey salt iterCount) validation =
        deriveCandidate c pwd0 encryptedKey salt iterCount := by
      rw [h0, hval]
    simp [decryptKey, hv, h0, hval]
  · intro hne
    have hv : ¬ (decryptValidation c (deriveCandidate c pwd encryptedKey salt iterCount) validation =
        deriveCandidate c pwd encryptedKey salt iterCount) := fun h => hne (huniq h)
    simp [decryptKey, hv, Except.toBool]

/-- Witness for C2 with the concrete toyCrypto vault: the correct password
recovers MK, and the wrong password derives a different candidate and
fails. -/
theorem decryptKey_validation_spec_witness :
    decryptValidation toyCrypto "MK" "V1" = "MK" ∧
    (decryptValidation toyCrypto (deriveCandidate toyCrypto "wrong" "EK" "S1" 1000) "V1" =
        deriveCandidate toyCrypto "wrong" "EK" "S1" 1000 →
      deriveCandidate toyCrypto "wrong" "EK" "S1" 1000 = "MK") ∧
    decryptKey toyCrypto "correct" "EK" "S1" 1000 "V1" = Except.ok "MK" ∧
    (decryptKey toyCrypto "wrong" "EK" "S1" 1000 "V1").toBool = false := by
  refine ⟨by decide, by decide, ?_, ?_⟩
  · exact (decryptKey_validation_spec toyCrypto "EK" "S1" "V1" "MK" "correct" "wrong" "MK" 1000
      (by decide) (by decide)).2.2.2.1 (by decide)
  · exact (decryptKey_validation_spec toyCrypto "EK" "S1" "V1" "MK" "correct" "wrong" "MK" 1000
      (by decide) (by decide)).2.2.2.2 (by decide)

/-- The level-selection loop finds no entry exactly when no persisted entry
carries the requested level. -/
theorem findLevelKey_eq_none_iff (keys : List EncryptionKeyEntry) (level : String) :
    findLevelKey keys level = none ↔ ∀ e ∈ keys, e.level ≠ level := by
  induction keys with
  | nil => simp [findLevelKey]
  | cons e rest ih =>
    rw [findLevelKey]
    cases h : findLevelKey rest level with
    | some kk =>
      have hne : ¬ (∀ x ∈ rest, x.level ≠ level) := by
        intro hall
        rw [ih.mpr hall] at h
        cases h
      simp only [List.mem_cons]
      constructor
      · intro hc
        cases hc
      · intro hall
        exact absurd (fun x hx => hall x (Or.inr hx)) hne
    | none =>
      have hrest := ih.mp h
      by_cases he : e.level = level
      · simp [he]
      · simp [he]
        exact hrest

/-- A selected entry is one of the persisted entries and carries the
requested level. -/
theorem findLevelKey_some_mem (keys : List EncryptionKeyEntry) (level : String)
    (k : EncryptionKeyEntry) :
    findLevelKey keys level = some k → k ∈ keys ∧ k.level = level := by
  induction keys with
  | nil => intro h; cases h
  | cons e rest ih =>
    rw [findLevelKey]
    cases h : findLevelKey rest level with
    | some kk =>
      intro hk
      cases hk
      rcases ih h with ⟨hm, hl⟩
      exact ⟨List.mem_cons_of_mem _ hm, hl⟩
    | none =>
      by_cases he : e.level = level
      · intro hk
        simp only [he, if_pos] at hk
        cases hk
        exact ⟨List.mem_cons_self _ _, he⟩
      · intro hk
        simp [he] at hk

/-- When exactly one persisted entry carries the requested level, the
selection loop returns that entry. -/
theorem findLevelKey_unique (keys : List EncryptionKeyEntry) (level : String)
    (k : EncryptionKeyEntry) (hk : k ∈ keys) (hlvl : k.level = level)
    (huniq : ∀ e ∈ keys, e.level = level → e = k) :
    findLevelKey keys level = some k := by
  induction keys with
  | nil => cases hk
  | cons e rest ih =>
    rw [findLevelKey]
    cases h : findLevelKey rest level with
    | some kk =>
      rcases findLevelKey_some_mem rest level kk h with ⟨hmem, hl⟩
      rw [huniq kk (List.mem_cons_of_mem _ hmem) hl]
    | none =>
      have hrest := (findLevelKey_eq_none_iff rest level).mp h
      rcases List.mem_cons.mp hk with he | hm
      · subst he
        simp [hlvl]
      · exact absurd hlvl (hrest k hm)

/-- C8: Vault.decryptItemData and Vault.encryptItemData delegate to the key
agent under the identifier of a persisted entry whose level equals the
requested level (the unique such entry when levels are unique), and fail
with the no-key error exactly when no persisted entry carries that level. -/
theorem itemData_level_key_selection
    (agentDecrypt agentEncrypt : String → String → Except String String)
    (keys : List EncryptionKeyEntry) (level data : String) (k : EncryptionKeyEntry) :
    (findLevelKey keys level = none ↔ ∀ e ∈ keys, e.level ≠ level) ∧
    (findLevelKey keys level = some k → k ∈ keys ∧ k.level = level) ∧
    (k ∈ keys → k.level = level → (∀ e ∈ keys, e.level = level → e = k) →
      findLevelKey keys level = some k) ∧
    (findLevelKey keys level = some k →
      Vault.decryptItemData agentDecrypt keys level data = agentDecrypt k.identifier data ∧
      Vault.encryptItemData agentEncrypt keys level data = agentEncrypt k.identifier data) ∧
    (findLevelKey keys level = none →
      Vault.decryptItemData agentDecrypt keys level data =
        Except.error ("No key " ++ level ++ " found") ∧
      Vault.encryptItemData agentEncrypt keys level data =
        Except.error ("No key " ++ level ++ " found")) := by
  refine ⟨findLevelKey_eq_none_iff keys level, findLevelKey_some_mem keys level k,
    findLevelKey_unique keys level k, ?_, ?_⟩
  · intro h
    constructor <;> simp [Vault.decryptItemData, Vault.encryptItemData, h]
  · intro h
    constructor <;> simp [Vault.decryptItemData, Vault.encryptItemData, h]

/-- Witness for C8: with entries at levels SL3 and SL5, requesting SL5
delegates to the agent under id1, and requesting SL9 fails with the no-key
error. -/
theorem itemData_level_key_selection_witness :
    Vault.decryptItemData sampleAgentOp [entry3, entry1] "SL5" "data" =
      sampleAgentOp "id1" "data" ∧
    Vault.encryptItemData sampleAgentOp [entry3, entry1] "SL5" "data" =
      sampleAgentOp "id1" "data" ∧
    Vault.decryptItemData sampleAgentOp [entry3, entry1] "SL9" "data" =
      Except.error ("No key " ++ "SL9" ++ " found") := by
  refine ⟨?_, ?_, ?_⟩
  · exact ((itemData_level_key_selection sampleAgentOp sampleAgentOp [entry3, entry1]
      "SL5" "data" entry1).2.2.2.1 (by decide)).1
  · exact ((itemData_level_key_selection sampleAgentOp sampleAgentOp [entry3, entry1]
      "SL5" "data" entry1).2.2.2.1 (by decide)).2
  · exact ((itemData_level_key_selection sampleAgentOp sampleAgentOp [entry3, entry1]
      "SL9" "data" entry1).2.2.2.2 (by decide)).1

/-- C9: Store.listItems returns a tombstone-typed item only when the
includeTombstones option is set (with the default false every tombstone in
the overview index is omitted), and Vault.listItems never returns a
tombstone. -/
theorem listItems_tombstone_filtering (decryptIndex : String → OverviewMap)
    (s : StoreState) (b : Bool) (it : Item) (entries : List ContentsEntry)
    (vit : VaultItem) :
    (it ∈ (Store.listItems decryptIndex s false).1 → it.isTombstone = false) ∧
    (it ∈ (Store.listItems decryptIndex s b).1 →
      it.typeName = "system.Tombstone" → b = true) ∧
    (vit ∈ Vault.listItems entries → vit.isTombstone = false) := by
  refine ⟨?_, ?_, ?_⟩
  · intro h
    simp [Store.listItems, itemsFromIndex] at h
    exact h.2
  · intro h htn
    simp [Store.listItems, itemsFromIndex] at h
    have ht : it.isTombstone = true := by simp [Item.isTombstone, htn]
    rcases h.2 with hfalse | htrue
    · rw [ht] at hfalse
      cases hfalse
    · exact htrue
  · intro h
    simp [Vault.listItems] at h
    rcases h with ⟨e, _, hts, heq⟩
    rw [← heq]
    exact hts

/-- Witness for C9: the tombstone entry of the mixed index is not listed by
default, and the tombstone contents row is never listed by the vault. -/
theorem listItems_tombstone_filtering_witness :
    (Store.itemFromOverview "t1" tombOverview ∈
        (Store.listItems sampleDecrypt mixedState false).1 → False) ∧
    (vaultItemFromEntry contentsRow2 ∈
        Vault.listItems [contentsRow1, contentsRow2] → False) := by
  constructor
  · intro h
    have hb := (listItems_tombstone_filtering sampleDecrypt mixedState false
      (Store.itemFromOverview "t1" tombOverview) [] (vaultItemFromEntry contentsRow2)).2.1
      h (by decide)
    exact absurd hb (by decide)
  · intro h
    have hb := (listItems_tombstone_filtering sampleDecrypt mixedState false
      (Store.itemFromOverview "t1" tombOverview) [contentsRow1, contentsRow2]
      (vaultItemFromEntry contentsRow2)).2.2 h
    exact absurd hb (by decide)

/-- C1 counterexample: a vault with two persisted entries where the first
validates under the password and the second has a corrupt validation blob.
The unlock as a whole fails, yet the key of the first entry is left
registered in the key agent even though the agent started empty, so the
failed attempt does leave a key behind. -/
theorem unlock_atomicity_counterexample :
    (Vault.unlock toyCrypto "correct" ⟨[]⟩ [entry1, entry2]).2 =
      Except.error "Failed to decrypt key" ∧
    (Vault.unlock toyCrypto "correct" ⟨[]⟩ [entry1, entry2]).1 =
      ⟨[("id1", "MK")]⟩ ∧
    (⟨[("id1", "MK")]⟩ : KeyAgentState) ≠ ⟨[]⟩ :=
  ⟨rfl, rfl, by decide⟩

/-- C1 (amended): the unlock succeeds exactly when every persisted entry
validates; on failure the key agent retains exactly the keys registered for
the entries preceding the first failing one (no key when the first entry
fails), while the entries from the first failure onward register nothing. -/
theorem unlock_failure_behavior (c : CryptoImpl) (pwd : String)
    (agent : KeyAgentState) (entries : List EncryptionKeyEntry) :
    (Vault.unlock c pwd agent entries).1 =
      (unlockAddedKeys c pwd entries).foldl (fun a p => a.addKey p.1 p.2) agent ∧
    ((Vault.unlock c pwd agent entries).2 = Except.ok () ↔
      ∀ e ∈ entries, (deriveEntry c pwd e).toBool = true) := by
  induction entries generalizing agent with
  | nil => simp [Vault.unlock, unlockAddedKeys]
  | cons e rest ih =>
    cases h : deriveEntry c pwd e with
    | error msg =>
      have h1 : Vault.unlock c pwd agent (e :: rest) = (agent, Except.error msg) := by
        simp [Vault.unlock, h]
      have h2 : unlockAddedKeys c pwd (e :: rest) = [] := by
        simp [unlockAddedKeys, List.takeWhile, h, Except.toBool]
      rw [h1, h2]
      refine ⟨rfl, ?_, ?_⟩
      · intro hc
        cases hc
      · intro hall
        have hb := hall e (List.mem_cons_self _ _)
        rw [h] at hb
        simp [Except.toBool] at hb
    | ok key =>
      have h1 : Vault.unlock c pwd agent (e :: rest) =
          Vault.unlock c pwd (agent.addKey e.identifier key) rest := by
        simp [Vault.unlock, h]
      have h2 : unlockAddedKeys c pwd (e :: rest) =
          (e.identifier, key) :: unlockAddedKeys c pwd rest := by
        simp [unlockAddedKeys, List.takeWhile, h, Except.toBool]
      rcases ih (agent.addKey e.identifier key) with ⟨ihl, ihr⟩
      rw [h1, h2]
      refine ⟨by rw [List.foldl_cons, ihl], ?_, ?_⟩
      · intro hok x hx
        rcases List.mem_cons.mp hx with rfl | hx2
        · rw [h]
          rfl
        · exact ihr.mp hok x hx2
      · intro hall
        exact ihr.mpr (fun x hx => hall x (List.mem_cons_of_mem _ hx))

/-- Witness for C1 (amended) at the concrete two-entry vault: the agent ends
holding exactly the keys of the validating prefix, and the unlock does not
resolve. -/
theorem unlock_failure_behavior_witness :
    (Vault.unlock toyCrypto "correct" ⟨[]⟩ [entry1, entry2]).1 =
      (unlockAddedKeys toyCrypto "correct" [entry1, entry2]).foldl
        (fun a p => a.addKey p.1 p.2) ⟨[]⟩ ∧
    (Vault.unlock toyCrypto "correct" ⟨[]⟩ [entry1, entry2]).2 ≠ Except.ok () := by
  constructor
  · exact (unlock_failure_behavior toyCrypto "correct" ⟨[]⟩ [entry1, entry2]).1
  · intro hok
    have hb := (unlock_failure_behavior toyCrypto "correct" ⟨[]⟩ [entry1, entry2]).2.mp
      hok entry2 (by decide)
    exact absurd hb (by decide)

/-- Removing a list of keys from the store one by one filters out exactly
the pairs whose key occurs in that list. -/
theorem foldl_kvRemove_eq (ids : List KeyStoreKey) (st : KeyStore) :
    ids.foldl (fun s id => kvRemove s id) st =
      st.filter (fun p => !(ids.contains p.1)) := by
  induction ids generalizing st with
  | nil => simp
  | cons id ids ih =>
    rw [List.foldl_cons, ih, kvRemove, List.filter_filter]
    apply List.filter_congr
    intro p _
    by_cases h1 : p.1 = id
    · simp [h1]
    · by_cases h2 : ids.contains p.1 <;> simp [h1, h2]

/-- The removal phase of Store.saveKeys leaves exactly the pairs that are not
under the key/ prefix. -/
theorem saveKeys_removed_eq (st : KeyStore) :
    (kvListKeyEntries st).foldl (fun s id => kvRemove s id) st =
      st.filter (fun p => !isKeyEntry p.1) := by
  rw [foldl_kvRemove_eq]
  apply List.filter_congr
  intro p hp
  by_cases h : isKeyEntry p.1
  · have hm : p.1 ∈ kvListKeyEntries st := by
      simp only [kvListKeyEntries, List.mem_filter]
      exact ⟨List.mem_map_of_mem Prod.fst hp, h⟩
    simp [h, hm]
  · have hm : p.1 ∉ kvListKeyEntries st := by
      simp only [kvListKeyEntries, List.mem_filter]
      intro hc
      exact h hc.2
    simp [h, hm]

/-- Writing a run of keys with pairwise-distinct identifiers over a store
that holds none of those identifiers prepends the corresponding pairs in
reverse order. -/
theorem foldl_kvSet_eq (keys : List Key) (base : KeyStore)
    (hnodup : (keys.map Key.identifier).Nodup)
    (hbase : ∀ p ∈ base, ∀ k ∈ keys, p.1 ≠ KeyStoreKey.keyEntry k.identifier) :
    keys.foldl
        (fun s k => kvSet s (KeyStoreKey.keyEntry k.identifier) (KeyStoreValue.keyVal k))
        base =
      keys.reverse.map keyPairOf ++ base := by
  induction keys generalizing base with
  | nil => simp
  | cons k ks ih =>
    rw [List.foldl_cons]
    have hset : kvSet base (KeyStoreKey.keyEntry k.identifier) (KeyStoreValue.keyVal k) =
        keyPairOf k :: base := by
      rw [kvSet, keyPairOf]
      congr 1
      apply List.filter_eq_self.mpr
      intro p hp
      have := hbase p hp k (List.mem_cons_self _ _)
      simp [this]
    have hhead : k.identifier ∉ ks.map Key.identifier := (List.nodup_cons.mp (by simpa using hnodup)).1
    have hbase2 : ∀ p ∈ keyPairOf k :: base, ∀ x ∈ ks,
        p.1 ≠ KeyStoreKey.keyEntry x.identifier := by
      intro p hp x hx
      rcases List.mem_cons.mp hp with rfl | hp2
      · simp only [keyPairOf, ne_eq, KeyStoreKey.keyEntry.injEq]
        intro he
        exact hhead (he ▸ List.mem_map_of_mem Key.identifier hx)
      · exact hbase p hp2 x (List.mem_cons_of_mem _ hx)
    rw [hset, ih (keyPairOf k :: base) (by simpa using (List.nodup_cons.mp (by simpa using hnodup)).2) hbase2]
    simp

/-- Canonical form of Store.saveKeys for keys with pairwise-distinct
identifiers: the resulting store is exactly the new hint binding followed by
the new key bindings; nothing of the previous store survives, because every
pair of the keys store is either a key/ entry (removed first) or the hint
(overwritten last). -/
theorem saveKeys_canonical (st : KeyStore) (keys : List Key) (h0 : String)
    (hnodup : (keys.map Key.identifier).Nodup) :
    Store.saveKeys st keys h0 =
      (KeyStoreKey.hint, KeyStoreValue.hintVal h0) :: keys.reverse.map keyPairOf := by
  unfold Store.saveKeys
  rw [saveKeys_removed_eq]
  have hbase : ∀ p ∈ st.filter (fun p => !isKeyEntry p.1), ∀ k ∈ keys,
      p.1 ≠ KeyStoreKey.keyEntry k.identifier := by
    intro p hp k _
    have h2 : isKeyEntry p.1 = false := by
      have := List.of_mem_filter hp
      simpa using this
    intro he
    rw [he] at h2
    simp [isKeyEntry] at h2
  show kvSet
      (keys.foldl
        (fun s k => kvSet s (KeyStoreKey.keyEntry k.identifier) (KeyStoreValue.keyVal k))
        (st.filter (fun p => !isKeyEntry p.1)))
      KeyStoreKey.hint (KeyStoreValue.hintVal h0) =
    (KeyStoreKey.hint, KeyStoreValue.hintVal h0) :: keys.reverse.map keyPairOf
  rw [foldl_kvSet_eq keys _ hnodup hbase, kvSet]
  congr 1
  rw [List.filter_append]
  have hmapf : (keys.reverse.map keyPairOf).filter
      (fun p => !(p.1 == KeyStoreKey.hint)) = keys.reverse.map keyPairOf := by
    apply List.filter_eq_self.mpr
    intro p hp
    rcases List.mem_map.mp hp with ⟨k, _, rfl⟩
    simp [keyPairOf]
  have hbasef : (st.filter (fun p => !isKeyEntry p.1)).filter
      (fun p => !(p.1 == KeyStoreKey.hint)) = [] := by
    rw [List.filter_eq_nil_iff]
    intro p hp
    have h2 : isKeyEntry p.1 = false := by
      have := List.of_mem_filter hp
      simpa using this
    cases hk : p.1 with
    | hint => simp [hk]
    | keyEntry id =>
      rw [hk] at h2
      simp [isKeyEntry] at h2
  rw [hmapf, hbasef, List.append_nil]

/-- Looking a key/ id up in a mapped key list mirrors looking the identifier
up in the key list itself. -/
theorem find_keyPair_map (l : List Key) (id : String) :
    (l.map keyPairOf).find? (fun p => p.1 == KeyStoreKey.keyEntry id) =
      (l.find? (fun k => k.identifier == id)).map keyPairOf := by
  induction l with
  | nil => rfl
  | cons k l ih =>
    by_cases h : k.identifier = id
    · simp [keyPairOf, List.find?, h]
    · simp only [List.map_cons, List.find?]
      have e1 : ((keyPairOf k).1 == KeyStoreKey.keyEntry id) = false := by
        simp [keyPairOf, h]
      have e2 : (k.identifier == id) = false := by simp [h]
      rw [e1, e2]
      exact ih

/-- In a key list with pairwise-distinct identifiers, searching for the
identifier of a member finds that member. -/
theorem find_self_of_nodup (l : List Key) (k : Key) (hk : k ∈ l)
    (hnodup : (l.map Key.identifier).Nodup) :
    l.find? (fun x => x.identifier == k.identifier) = some k := by
  induction l with
  | nil => cases hk
  | cons a l ih =>
    rcases List.mem_cons.mp hk with rfl | hm
    · simp [List.find?]
    · have hne : (a.identifier == k.identifier) = false := by
        simp only [beq_eq_false_iff_ne, ne_eq]
        intro he
        exact (List.nodup_cons.mp (by simpa using hnodup)).1
          (he ▸ List.mem_map_of_mem Key.identifier hm)
      rw [List.find?]
      rw [hne]
      exact ih hm (by simpa using (List.nodup_cons.mp (by simpa using hnodup)).2)

/-- A filterMap that fixes every member of a list reproduces the list. -/
theorem filterMap_fix {α : Type} (f : α → Option α) :
    ∀ (l : List α), (∀ a ∈ l, f a = some a) → l.filterMap f = l := by
  intro l
  induction l with
  | nil => intro _; rfl
  | cons a l ih =>
    intro h
    rw [List.filterMap_cons, h a (List.mem_cons_self _ _)]
    rw [ih (fun x hx => h x (List.mem_cons_of_mem _ hx))]

/-- Store.listKeys of a canonical saveKeys result returns exactly the stored
keys. -/
theorem listKeys_canonical (l : List Key) (h0 : String)
    (hnodup : (l.map Key.identifier).Nodup) :
    Store.listKeys ((KeyStoreKey.hint, KeyStoreValue.hintVal h0) :: l.map keyPairOf) = l := by
  unfold Store.listKeys
  have h1 : kvListKeyEntries ((KeyStoreKey.hint, KeyStoreValue.hintVal h0) :: l.map keyPairOf) =
      l.map (fun k => KeyStoreKey.keyEntry k.identifier) := by
    simp only [kvListKeyEntries, List.map_cons, List.filter_cons]
    have hh : isKeyEntry KeyStoreKey.hint = false := rfl
    rw [hh]
    simp only [Bool.false_eq_true, if_false, List.map_map]
    apply List.filter_eq_self.mpr
    intro x hx
    rcases List.mem_map.mp hx with ⟨k, _, rfl⟩
    rfl
  rw [h1, List.filterMap_map]
  apply filterMap_fix
  intro k hk
  have h2 : kvGet ((KeyStoreKey.hint, KeyStoreValue.hintVal h0) :: l.map keyPairOf)
      (KeyStoreKey.keyEntry k.identifier) = some (KeyStoreValue.keyVal k) := by
    unfold kvGet
    rw [List.find?]
    have e1 : ((KeyStoreKey.hint, KeyStoreValue.hintVal h0).1 ==
        KeyStoreKey.keyEntry k.identifier) = false := by simp
    rw [e1, find_keyPair_map, find_self_of_nodup l k hk hnodup]
    rfl
  simp only [Function.comp]
  rw [h2]

/-- C10 counterexample: with two given keys sharing the identifier a, only
the later one survives Store.saveKeys, so the stored key set is not the given
list. -/
theorem saveKeys_duplicate_identifier_counterexample :
    (({ identifier := "a", payload := "v1" } : Key) ∈
      [({ identifier := "a", payload := "v1" } : Key), { identifier := "a", payload := "v2" }]) ∧
    (({ identifier := "a", payload := "v1" } : Key) ∉
      Store.listKeys (Store.saveKeys []
        [({ identifier := "a", payload := "v1" } : Key), { identifier := "a", payload := "v2" }]
        "h")) := by
  constructor
  · decide
  · decide

/-- C10 (amended): for keys with pairwise-distinct identifiers, Store.saveKeys
replaces the whole persisted key set: afterwards the entries under the key/
prefix are exactly the given keys (Store.listKeys returns them up to order),
the password hint is the given hint, and the items store and index cache are
untouched. With a duplicated identifier only the last key for it survives. -/
theorem saveKeys_replaces_key_set (st : KeyStore) (keys : List Key)
    (hintText : String) (hnodup : (keys.map Key.identifier).Nodup) :
    List.Perm (Store.listKeys (Store.saveKeys st keys hintText)) keys ∧
    (∀ k : Key, k ∈ Store.listKeys (Store.saveKeys st keys hintText) ↔ k ∈ keys) ∧
    Store.passwordHint (Store.saveKeys st keys hintText) =
      some (KeyStoreValue.hintVal hintText) ∧
    (∀ s : StoreState, (s.saveKeysFull keys hintText).itemStore = s.itemStore ∧
      (s.saveKeysFull keys hintText).cachedIndex = s.cachedIndex) := by
  have hrevnodup : (keys.reverse.map Key.identifier).Nodup := by
    rw [List.map_reverse]
    exact List.nodup_reverse.mpr hnodup
  have hc := saveKeys_canonical st keys hintText hnodup
  have hl : Store.listKeys (Store.saveKeys st keys hintText) = keys.reverse := by
    rw [hc]
    exact listKeys_canonical keys.reverse hintText hrevnodup
  refine ⟨?_, ?_, ?_, ?_⟩
  · rw [hl]
    exact List.reverse_perm keys
  · intro k
    rw [hl]
    exact List.mem_reverse
  · rw [hc]
    rfl
  · intro s
    exact ⟨rfl, rfl⟩

/-- Witness for C10 (amended) at a concrete store holding an old key and an
old hint, replaced by two fresh keys and a new hint. -/
theorem saveKeys_replaces_key_set_witness :
    ((keysAB.map Key.identifier).Nodup) ∧
    List.Perm (Store.listKeys (Store.saveKeys oldKeyStore keysAB "newhint")) keysAB ∧
    (({ identifier := "old", payload := "ov" } : Key) ∈
        Store.listKeys (Store.saveKeys oldKeyStore keysAB "newhint") ↔
      ({ identifier := "old", payload := "ov" } : Key) ∈ keysAB) ∧
    Store.passwordHint (Store.saveKeys oldKeyStore keysAB "newhint") =
      some (KeyStoreValue.hintVal "newhint") ∧
    (oldFullState.saveKeysFull keysAB "newhint").itemStore = oldFullState.itemStore := by
  refine ⟨by decide, ?_, ?_, ?_, ?_⟩
  · exact (saveKeys_replaces_key_set oldKeyStore keysAB "newhint" (by decide)).1
  · exact (saveKeys_replaces_key_set oldKeyStore keysAB "newhint" (by decide)).2.1 _
  · exact (saveKeys_replaces_key_set oldKeyStore keysAB "newhint" (by decide)).2.2.1
  · exact ((saveKeys_replaces_key_set oldKeyStore keysAB "newhint" (by decide)).2.2.2
      oldFullState).1
